import Mathlib

/-!
Verification of the keyword-classification / ranking / narrative pipeline of the
medical_product_overview_system repository.

The Python sources `src/utils/text_processor.py` and `src/utils/keyword_processor.py`
are shallowly embedded below.  Conventions of the embedding:

* Python floats in the classifier's scoring are exact decimal constants
  (multiples of 0.1 produced from increments of 1.0 / 0.5 / 0.3 and weights
  0.7–1.2); they are modelled exactly, scaled by 100 into `Nat`
  (scores in hundredths, bases in tenths).  The keyword-ranker weights are
  modelled as exact rationals (`ℚ`).
* `str.lower()` is modelled by ASCII lowering (`Char.toLower`), which agrees
  with Python on the character domain of this repository (ASCII + Hangul,
  which Python's `lower` leaves unchanged).
* Python regular expressions are hand-compiled to executable matchers with the
  exact semantics of the concrete patterns appearing in the source; the
  relevant patterns never need backtracking because no alternative begins
  with a digit, a dot or a space.
* `SequenceMatcher(None, a, b).ratio()` comes from Python's standard `difflib`
  library, which is external to this repository; it is modelled as a function
  parameter `sim`, constrained (where a claim needs it) to its documented
  range [0, 1].
* The generative-text client `llm/ollama_client.py` is part of the repository
  but absent from `src/`; its outcomes, and `json.loads`, are universally
  quantified parameters, constrained only by the contract stated in the spec.
-/

namespace MedOverview

/-! ## Basic string helpers (Python semantics) -/

/-- Model of Python `str.lower()` on the repository's character domain:
ASCII letters are lowered, all other characters (Hangul, digits, symbols)
are unchanged, matching `Char.toLower`. -/
def pyLower (s : String) : String :=
  String.mk (s.data.map Char.toLower)

/-- `a.isPrefixOf b` on raw character lists (needle first). -/
def listIsPre : List Char → List Char → Bool
  | [], _ => true
  | _ :: _, [] => false
  | a :: as, b :: bs => a == b && listIsPre as bs

/-- Contiguous-substring test on character lists: Python's `needle in hay`. -/
def listSub (needle : List Char) : List Char → Bool
  | [] => needle.isEmpty
  | c :: t => listIsPre needle (c :: t) || listSub needle t

/-- Python `needle in hay` for strings. -/
def strContains (hay needle : String) : Bool :=
  listSub needle.data hay.data

/-- Python `re.search(r'\d', s)` / `re.search(r'\d+', s)`: the source only
feeds it ASCII/Hangul text, on which `\d` is the ASCII digits. -/
def hasDigit (s : String) : Bool :=
  s.data.any (fun c => c.isDigit)

/-- Python `\s` whitespace class (ASCII part; the repository's texts use
plain spaces). -/
def isPySpace (c : Char) : Bool :=
  c == ' ' || c == '\t' || c == '\n' || c == '\r' || c == Char.ofNat 11 || c == Char.ofNat 12

/-- Helper for `pySplitWs`: split on whitespace runs, dropping empties. -/
def splitWsAux : List Char → List Char → List (List Char)
  | [], cur => if cur.isEmpty then [] else [cur.reverse]
  | c :: rest, cur =>
    if isPySpace c then
      (if cur.isEmpty then [] else [cur.reverse]) ++ splitWsAux rest []
    else
      splitWsAux rest (c :: cur)

/-- Python `s.split()` (no argument): split on whitespace runs, no empty
tokens. -/
def pySplitWs (s : String) : List String :=
  (splitWsAux s.data []).map String.mk

/-- Python `s.strip()`: remove leading and trailing whitespace. -/
def pyStrip (s : String) : String :=
  String.mk (((s.data.dropWhile isPySpace).reverse.dropWhile isPySpace).reverse)

/-! ## Section data model (`classify_keywords_by_section`, text_processor.py 192–315)

The 11 fixed sections, in the iteration order of the Python dict
`section_keyword_sets` (Python dicts preserve insertion order). -/

/-- The 11 fixed sections of the Korean drug-overview document. -/
inductive SectionId
  | composition   -- "성분 및 함량"
  | appearance    -- "성상"
  | efficacy      -- "효능 및 효과"
  | dosage        -- "용법 및 용량"
  | precautions   -- "사용상 주의사항"
  | interactions  -- "상호작용"
  | pregnancy     -- "임부 및 수유부 사용"
  | elderly       -- "고령자 사용"
  | application   -- "적용 시 주의사항"
  | storage       -- "보관 및 취급"
  | manufacturer  -- "제조 및 판매사 정보"
deriving DecidableEq, Repr

/-- The Korean name of each section (the dict keys of the source). -/
def sectionName : SectionId → String
  | .composition => "성분 및 함량"
  | .appearance => "성상"
  | .efficacy => "효능 및 효과"
  | .dosage => "용법 및 용량"
  | .precautions => "사용상 주의사항"
  | .interactions => "상호작용"
  | .pregnancy => "임부 및 수유부 사용"
  | .elderly => "고령자 사용"
  | .application => "적용 시 주의사항"
  | .storage => "보관 및 취급"
  | .manufacturer => "제조 및 판매사 정보"

/-- Per-section weight of `section_keyword_sets`, in tenths
(1.2, 1.0, 1.1, 1.1, 1.0, 0.9, 0.9, 0.8, 0.8, 1.0, 0.7). -/
def weightTenths : SectionId → Nat
  | .composition => 12
  | .appearance => 10
  | .efficacy => 11
  | .dosage => 11
  | .precautions => 10
  | .interactions => 9
  | .pregnancy => 9
  | .elderly => 8
  | .application => 8
  | .storage => 10
  | .manufacturer => 7

/-- Representative keyword list for "성분 및 함량" (source: section_keyword_sets). -/
def kws_composition : List String :=
  ["성분", "주성분", "첨가제", "결합제", "희석제", "아세트아미노펜", "이부프로펜", "아스피린", "세마글루타이드", "메트포르민", "파세타민", "USP", "EP", "JP", "순도", "아세트", "아미노", "펜", "이부", "프로", "세마", "글루", "타이드", "메트", "포르민", "글리", "메피", "리드", "파세", "타민", "mg", "g", "ml", "mcg", "단위", "함량", "배합목적", "주성분", "첨가성분", "보조성분", "기준", "분량", "투여단위", "함량", "순도", "함유량", "포함량", "규격"]

/-- Representative keyword list for "성상" (source: section_keyword_sets). -/
def kws_appearance : List String :=
  ["외형", "모양", "색상", "색깔", "흰색", "노란색", "각인", "표시", "마크", "원형", "타원형", "정사각형", "직사각형", "무색", "투명", "불투명", "외관", "형태", "크기", "무게", "두께", "지름", "길이", "폭", "성상"]

/-- Representative keyword list for "효능 및 효과" (source: section_keyword_sets). -/
def kws_efficacy : List String :=
  ["효능", "효과", "작용", "약리작용", "치료효과", "치료작용", "약효", "효과성", "치료", "개선", "완화", "해열", "진통", "소염", "항염증", "항생", "항균", "항바이러스", "항암", "항고혈압", "항당뇨", "항혈전"]

/-- Representative keyword list for "용법 및 용량" (source: section_keyword_sets). -/
def kws_dosage : List String :=
  ["용법", "용량", "투여", "복용", "투여량", "복용량", "투여방법", "복용방법", "투여간격", "복용간격", "투여기간", "복용기간", "적응증", "투여경로", "복용경로", "경구", "주사", "점적", "도포", "흡입"]

/-- Representative keyword list for "사용상 주의사항" (source: section_keyword_sets). -/
def kws_precautions : List String :=
  ["주의사항", "경고", "금기", "주의", "이상반응", "부작용", "부정반응", "알레르기", "과민반응", "중독", "중독성", "의존성", "습관성", "내성", "내약성", "내성발생", "내약성발생", "주의환자", "주의필요", "주의대상"]

/-- Representative keyword list for "상호작용" (source: section_keyword_sets). -/
def kws_interactions : List String :=
  ["상호작용", "약물상호작용", "약물간상호작용", "약물조합", "약물병용", "약물배합", "약물결합", "약물반응", "약물효과", "약물영향", "약물작용", "약물반응성", "약물민감성"]

/-- Representative keyword list for "임부 및 수유부 사용" (source: section_keyword_sets). -/
def kws_pregnancy : List String :=
  ["임부", "임신부", "임신", "수유부", "수유", "태아", "태아기", "태아발달", "태아영향", "태아독성", "태아기형", "태아기형성", "태아발달장애", "태아발달지연", "태아발달영향"]

/-- Representative keyword list for "고령자 사용" (source: section_keyword_sets). -/
def kws_elderly : List String :=
  ["고령자", "노인", "노년", "고령", "노화", "노인성", "노년성", "고령자용", "노인용", "노년용", "고령자적합", "노인적합", "노년적합"]

/-- Representative keyword list for "적용 시 주의사항" (source: section_keyword_sets). -/
def kws_application : List String :=
  ["적용", "적용시", "적용시주의", "적용주의", "적용시주의사항", "적용주의사항", "적용시주의점", "적용주의점", "적용시주의할점", "적용주의할점"]

/-- Representative keyword list for "보관 및 취급" (source: section_keyword_sets). -/
def kws_storage : List String :=
  ["보관", "보관조건", "보관방법", "보관온도", "보관습도", "보관장소", "보관기간", "보관주의", "보관주의사항", "보관주의점", "보관주의할점", "취급", "취급방법", "취급주의", "취급주의사항", "취급주의점", "취급주의할점", "포장", "포장단위", "포장방법", "포장주의", "포장주의사항"]

/-- Representative keyword list for "제조 및 판매사 정보" (source: section_keyword_sets). -/
def kws_manufacturer : List String :=
  ["제조사", "제조업체", "제조회사", "제조기업", "제조공장", "제조시설", "제조설비", "제조라인", "제조공정", "제조과정", "제조방법", "제조기술", "제조품질", "제조관리", "판매사", "판매업체", "판매회사", "판매기업", "판매점", "판매소", "판매처", "판매망", "판매네트워크", "공장", "공장주소", "공장위치", "공장소재지", "공장소재", "소비자상담실", "고객상담실", "상담실", "상담소", "상담센터"]

/-- The `"keywords"` entry of `section_keyword_sets` for each section. -/
def sectionKws : SectionId → List String
  | .composition => kws_composition
  | .appearance => kws_appearance
  | .efficacy => kws_efficacy
  | .dosage => kws_dosage
  | .precautions => kws_precautions
  | .interactions => kws_interactions
  | .pregnancy => kws_pregnancy
  | .elderly => kws_elderly
  | .application => kws_application
  | .storage => kws_storage
  | .manufacturer => kws_manufacturer

/-- The sections in the iteration order of the Python dict. -/
def sectionList : List SectionId :=
  [.composition, .appearance, .efficacy, .dosage, .precautions, .interactions,
   .pregnancy, .elderly, .application, .storage, .manufacturer]

/-! ## Per-keyword scoring (text_processor.py 262–292) -/

/-- Direct-match test of the scoring loop:
`section_keyword.lower() in keyword_lower or keyword_lower in section_keyword.lower()`
(`kl` is the lowered candidate, `skl` the lowered section keyword). -/
def directPred (kl skl : String) : Bool :=
  strContains kl skl || strContains skl kl

/-- Partial-match test:
`any(token in keyword_lower for token in section_keyword.lower().split())`. -/
def tokenPred (kl skl : String) : Bool :=
  (pySplitWs skl).any (fun t => strContains kl t)

/-- The digit bonus (source line 287–289, in tenths):
`0.3` is added only when the candidate contains a digit AND the iterated
section name equals the string "성분 정보". -/
def numberBonus (k : String) (s : SectionId) : Nat :=
  if hasDigit k && (sectionName s == "성분 정보") then 3 else 0

/-- `total_score = (direct_match_score + partial_match_score + number_bonus) * weight`
for one section, scaled by 100 (exact: all summands are multiples of 0.1 and
weights are multiples of 0.1).  `kl` is the lowered candidate, `k` the
original candidate. -/
def score (kl k : String) (s : SectionId) : Nat :=
  let sks := sectionKws s
  let direct := sks.countP (fun sk => directPred kl (pyLower sk))
  let tokenCnt := sks.countP (fun sk => tokenPred kl (pyLower sk))
  (10 * direct + 5 * tokenCnt + numberBonus k s) * weightTenths s

/-- One step of the best-section loop: update on a strictly greater score. -/
def stepBest (kl k : String) (acc : Option SectionId × Nat) (s : SectionId) :
    Option SectionId × Nat :=
  if acc.2 < score kl k s then (some s, score kl k s) else acc

/-- The (best_section, best_score) pair after the loop over all 11 sections
(best_score in hundredths). -/
def bestPair (kl k : String) : Option SectionId × Nat :=
  sectionList.foldl (stepBest kl k) (Option.none, 0)

/-- `best_score` of a keyword, in hundredths (so the 0.5 threshold is 50). -/
def bestScore (k : String) : Nat :=
  (bestPair (pyLower k) k).2

/-- `best_section` of a keyword. -/
def bestSec (k : String) : Option SectionId :=
  (bestPair (pyLower k) k).1

/-- Test `any(word in keyword_lower for word in ws)` of the fallback chain. -/
def containsAnyOf (hay : String) (ws : List String) : Bool :=
  ws.any (fun w => strContains hay w)

/-- The low-score fallback chain (source lines 302–313). -/
def fallbackAssign (k : String) : SectionId :=
  let kl := pyLower k
  if hasDigit k then .composition
  else if containsAnyOf kl ["정", "캡슐", "주사제", "제형"] then .appearance
  else if containsAnyOf kl ["색상", "모양", "각인"] then .appearance
  else if containsAnyOf kl ["용기", "포장"] then .storage
  else .composition

/-- The section a single keyword is assigned to (source lines 257–313):
the best-scoring section when one exists and its score is ≥ 0.5, otherwise
the fallback chain. -/
def assign (k : String) : SectionId :=
  match bestPair (pyLower k) k with
  | (some s, bs) => if 50 ≤ bs then s else fallbackAssign k
  | (Option.none, _) => fallbackAssign k

/-! ## The classified-keywords mapping -/

/-- The result dict `section_keywords`: one keyword list per section. -/
structure SectionMap where
  composition : List String
  appearance : List String
  efficacy : List String
  dosage : List String
  precautions : List String
  interactions : List String
  pregnancy : List String
  elderly : List String
  application : List String
  storage : List String
  manufacturer : List String
deriving DecidableEq, Repr

/-- The initial map of 11 empty lists (source lines 243–255). -/
def emptyMap : SectionMap :=
  ⟨[], [], [], [], [], [], [], [], [], [], []⟩

/-- Read a section's list from the map. -/
def SectionMap.get (m : SectionMap) : SectionId → List String
  | .composition => m.composition
  | .appearance => m.appearance
  | .efficacy => m.efficacy
  | .dosage => m.dosage
  | .precautions => m.precautions
  | .interactions => m.interactions
  | .pregnancy => m.pregnancy
  | .elderly => m.elderly
  | .application => m.application
  | .storage => m.storage
  | .manufacturer => m.manufacturer

/-- `section_keywords[s].append(k)`. -/
def SectionMap.addTo (m : SectionMap) (s : SectionId) (k : String) : SectionMap :=
  match s with
  | .composition => { m with composition := m.composition ++ [k] }
  | .appearance => { m with appearance := m.appearance ++ [k] }
  | .efficacy => { m with efficacy := m.efficacy ++ [k] }
  | .dosage => { m with dosage := m.dosage ++ [k] }
  | .precautions => { m with precautions := m.precautions ++ [k] }
  | .interactions => { m with interactions := m.interactions ++ [k] }
  | .pregnancy => { m with pregnancy := m.pregnancy ++ [k] }
  | .elderly => { m with elderly := m.elderly ++ [k] }
  | .application => { m with application := m.application ++ [k] }
  | .storage => { m with storage := m.storage ++ [k] }
  | .manufacturer => { m with manufacturer := m.manufacturer ++ [k] }

/-- `classify_keywords_by_section` (text_processor.py 192–315): every input
keyword is appended to exactly one section's list. -/
def classify_keywords_by_section (keywords : List String) : SectionMap :=
  keywords.foldl (fun m k => m.addTo (assign k) k) emptyMap

/-- Total number of keywords stored in the map. -/
def totalLen (m : SectionMap) : Nat :=
  m.composition.length + m.appearance.length + m.efficacy.length +
  m.dosage.length + m.precautions.length + m.interactions.length +
  m.pregnancy.length + m.elderly.length + m.application.length +
  m.storage.length + m.manufacturer.length

/-! ## Structural lemmas about the classifier -/

lemma get_emptyMap (s : SectionId) : emptyMap.get s = [] := by
  cases s <;> rfl

lemma get_addTo (m : SectionMap) (t s : SectionId) (k : String) :
    (m.addTo t k).get s = if t = s then m.get s ++ [k] else m.get s := by
  cases t <;> cases s <;> simp [SectionMap.addTo, SectionMap.get]

lemma totalLen_addTo (m : SectionMap) (t : SectionId) (k : String) :
    totalLen (m.addTo t k) = totalLen m + 1 := by
  cases t <;> simp [SectionMap.addTo, totalLen] <;> omega

lemma totalLen_foldl (ks : List String) :
    ∀ m : SectionMap,
      totalLen (ks.foldl (fun m k => m.addTo (assign k) k) m) = totalLen m + ks.length := by
  induction ks with
  | nil => intro m; simp
  | cons k t ih =>
    intro m
    simp only [List.foldl_cons, List.length_cons, ih, totalLen_addTo]
    omega

lemma get_foldl (ks : List String) :
    ∀ (m : SectionMap) (s : SectionId),
      (ks.foldl (fun m k => m.addTo (assign k) k) m).get s
        = m.get s ++ ks.filter (fun k => assign k = s) := by
  induction ks with
  | nil => intro m s; simp
  | cons k t ih =>
    intro m s
    simp only [List.foldl_cons, ih, get_addTo, List.filter_cons]
    by_cases h : assign k = s
    · simp [h]
    · simp [h]

lemma get_classify (ks : List String) (s : SectionId) :
    (classify_keywords_by_section ks).get s = ks.filter (fun k => assign k = s) := by
  simp [classify_keywords_by_section, get_foldl, get_emptyMap]

/-- C1 -- For every input list of keyword strings,
`classify_keywords_by_section` assigns each keyword to exactly one of the 11
fixed sections: the total number of stored keywords equals the length of the
input, and each input keyword is a member of exactly one section's list
(namely the one chosen by the per-keyword assignment). -/
theorem classify_partitions_keywords (ks : List String) :
    totalLen (classify_keywords_by_section ks) = ks.length ∧
    ∀ k, k ∈ ks → ∃! s : SectionId, k ∈ (classify_keywords_by_section ks).get s := by
  constructor
  · have h0 : totalLen emptyMap = 0 := rfl
    simpa [classify_keywords_by_section, h0] using totalLen_foldl ks emptyMap
  · intro k hk
    refine ⟨assign k, ?_, ?_⟩
    · simp [get_classify, List.mem_filter, hk]
    · intro s hs
      simp only [get_classify, List.mem_filter] at hs
      have := hs.2
      simp_all

/-- C1 witness: the theorem at the concrete input `["1mg", "유리"]`. -/
theorem classify_partitions_keywords_witness :
    totalLen (classify_keywords_by_section ["1mg", "유리"]) = 2 ∧
    ∃! s : SectionId, "유리" ∈ (classify_keywords_by_section ["1mg", "유리"]).get s :=
  ⟨((classify_partitions_keywords ["1mg", "유리"]).1).trans (by decide),
   (classify_partitions_keywords ["1mg", "유리"]).2 "유리" (by decide)⟩

/-! ## C2: the concrete scenario keywords -/

/-- The input keyword list of the C2 scenario. -/
def c2input : List String := ["세마글루타이드", "1mg", "유리", "병"]

/-- C2 counterexample -- the claim as stated is false: on the scenario input,
neither "유리" nor "병" is placed in the container/storage section
"보관 및 취급" (its list stays empty). -/
theorem c2_claim_false :
    ¬ ("유리" ∈ (classify_keywords_by_section c2input).storage ∧
       "병" ∈ (classify_keywords_by_section c2input).storage) := by
  decide

/-- C2 amended -- on the scenario input, "세마글루타이드" and "1mg" land in
"성분 및 함량" as claimed; but "유리" also lands in "성분 및 함량" (it reaches
the fallback chain and matches none of its substring tests, so it gets the
default section), and "병" lands in "상호작용" (it is a substring of the
section keyword "약물병용", scoring 0.9 ≥ 0.5). -/
theorem c2_amended :
    "세마글루타이드" ∈ (classify_keywords_by_section c2input).composition ∧
    "1mg" ∈ (classify_keywords_by_section c2input).composition ∧
    "유리" ∈ (classify_keywords_by_section c2input).composition ∧
    "병" ∈ (classify_keywords_by_section c2input).interactions := by
  decide

/-! ## C3: the digit bonus is dead code -/

/-- C3 -- the special-cased name of the digit bonus, "성분 정보", is not the
name of any of the 11 configured sections, so `number_bonus` is 0 for every
section even for a digit-containing keyword such as "1mg" (the loop's
`section == "성분 정보"` test never succeeds); the intended boost of the
ingredient section never happens. -/
theorem number_bonus_never_applies :
    hasDigit "1mg" = true ∧
    (∀ s : SectionId, sectionName s ≠ "성분 정보") ∧
    (∀ s : SectionId, numberBonus "1mg" s = 0) := by
  refine ⟨rfl, ?_, ?_⟩ <;> intro s <;> cases s <;> decide

/-! ## C4: the fallback chain -/

lemma weightTenths_ge (s : SectionId) : 7 ≤ weightTenths s := by
  cases s <;> decide

/-- If some section keyword direct-matches the candidate, that section's
score is at least 0.7 ≥ 0.5. -/
lemma score_ge_of_direct (kl k w : String) (s : SectionId)
    (hw : w ∈ sectionKws s) (hd : directPred kl (pyLower w) = true) :
    50 ≤ score kl k s := by
  have hpos : 0 < (sectionKws s).countP (fun sk => directPred kl (pyLower sk)) :=
    List.countP_pos_iff.mpr ⟨w, hw, hd⟩
  have hbase : 10 ≤ 10 * (sectionKws s).countP (fun sk => directPred kl (pyLower sk))
      + 5 * (sectionKws s).countP (fun sk => tokenPred kl (pyLower sk))
      + numberBonus k s := by omega
  calc 50 ≤ 10 * 7 := by norm_num
    _ ≤ (10 * (sectionKws s).countP (fun sk => directPred kl (pyLower sk))
          + 5 * (sectionKws s).countP (fun sk => tokenPred kl (pyLower sk))
          + numberBonus k s) * weightTenths s :=
        Nat.mul_le_mul hbase (weightTenths_ge s)
    _ = score kl k s := rfl

/-- The best-pair fold dominates the accumulator and every scanned score. -/
lemma foldl_stepBest_ge (kl k : String) :
    ∀ (l : List SectionId) (acc : Option SectionId × Nat),
      acc.2 ≤ (l.foldl (stepBest kl k) acc).2 ∧
      ∀ s ∈ l, score kl k s ≤ (l.foldl (stepBest kl k) acc).2 := by
  intro l
  induction l with
  | nil => intro acc; exact ⟨le_rfl, by simp⟩
  | cons a t ih =>
    intro acc
    have hstep : acc.2 ≤ (stepBest kl k acc a).2 ∧ score kl k a ≤ (stepBest kl k acc a).2 := by
      unfold stepBest
      by_cases h : acc.2 < score kl k a <;> simp [h] <;> omega
    refine ⟨le_trans hstep.1 (ih (stepBest kl k acc a)).1, ?_⟩
    intro s hs
    rcases List.mem_cons.mp hs with h | h
    · rw [h]
      exact le_trans hstep.2 (ih (stepBest kl k acc a)).1
    · exact (ih (stepBest kl k acc a)).2 s h

/-- `best_score` dominates every section's score. -/
lemma bestScore_ge (k : String) (s : SectionId) :
    score (pyLower k) k s ≤ bestScore k := by
  have hs : s ∈ sectionList := by cases s <;> decide
  exact (foldl_stepBest_ge (pyLower k) k sectionList (Option.none, 0)).2 s hs

/-- A positive `best_score` means `best_section` was set. -/
lemma bestSec_isSome_of_pos (kl k : String) :
    0 < (bestPair kl k).2 → ∃ s, (bestPair kl k).1 = some s := by
  have key : ∀ (l : List SectionId) (acc : Option SectionId × Nat),
      (0 < acc.2 → ∃ s, acc.1 = some s) →
      (0 < (l.foldl (stepBest kl k) acc).2 → ∃ s, (l.foldl (stepBest kl k) acc).1 = some s) := by
    intro l
    induction l with
    | nil => intro acc h; exact h
    | cons a t ih =>
      intro acc h
      refine ih (stepBest kl k acc a) ?_
      unfold stepBest
      by_cases hc : acc.2 < score kl k a
      · simp [hc]
      · simpa [hc] using h
  exact key sectionList (Option.none, 0) (by simp)

/-- A keyword that reaches the fallback (best score < 0.5) cannot contain
"색상", "모양" or "각인": each is itself a section keyword of "성상", which
would force a direct-match score of at least 0.7 ≥ 0.5. -/
lemma no_appearance_word_of_low_score (k : String) (hlt : bestScore k < 50) :
    containsAnyOf (pyLower k) ["색상", "모양", "각인"] = false := by
  by_contra hcon
  have hany : containsAnyOf (pyLower k) ["색상", "모양", "각인"] = true := by
    cases hval : containsAnyOf (pyLower k) ["색상", "모양", "각인"]
    · exact absurd hval hcon
    · rfl
  have hex : ∃ w ∈ (["색상", "모양", "각인"] : List String),
      strContains (pyLower k) w = true := by
    simpa [containsAnyOf, List.any_eq_true] using hany
  rcases hex with ⟨w, hw, hc⟩
  have hmem : w ∈ sectionKws SectionId.appearance := by
    fin_cases hw <;> decide
  have hl : pyLower w = w := by
    fin_cases hw <;> decide
  have hd : directPred (pyLower k) (pyLower w) = true := by
    rw [hl]
    simp [directPred, hc]
  have h50 : 50 ≤ score (pyLower k) k SectionId.appearance :=
    score_ge_of_direct (pyLower k) k w SectionId.appearance hmem hd
  have hbest := bestScore_ge k SectionId.appearance
  omega

/-- C4 -- For every keyword whose best section score is below the 0.5
threshold, `classify_keywords_by_section` assigns it by the deterministic
fallback chain, in this order: a digit-containing keyword goes to
"성분 및 함량"; else a keyword containing one of the form substrings
"정"/"캡슐"/"주사제"/"제형" goes to "성상"; else a keyword containing "용기"
or "포장" goes to "보관 및 취급"; otherwise the default section
"성분 및 함량".  (The source also has a "색상"/"모양"/"각인" branch, but it
is unreachable below the threshold: see `no_appearance_word_of_low_score`.)
A keyword whose best score is ≥ 0.5 is assigned to the best-scoring section. -/
theorem fallback_chain_deterministic (k : String) :
    (bestScore k < 50 →
      assign k =
        if hasDigit k then SectionId.composition
        else if containsAnyOf (pyLower k) ["정", "캡슐", "주사제", "제형"] then SectionId.appearance
        else if containsAnyOf (pyLower k) ["용기", "포장"] then SectionId.storage
        else SectionId.composition) ∧
    (50 ≤ bestScore k → ∃ s, bestSec k = some s ∧ assign k = s) := by
  constructor
  · intro hlt
    have hmid := no_appearance_word_of_low_score k hlt
    have hfb : assign k = fallbackAssign k := by
      unfold assign
      rcases hbp : bestPair (pyLower k) k with ⟨os, bs⟩
      have hbs : bs < 50 := by
        have : bestScore k = bs := by rw [bestScore, hbp]
        omega
      cases os with
      | none => rfl
      | some s => simp [Nat.not_le.mpr hbs]
    rw [hfb]
    simp [fallbackAssign, hmid]
  · intro hge
    have hpos : 0 < (bestPair (pyLower k) k).2 := by
      have : bestScore k = (bestPair (pyLower k) k).2 := rfl
      omega
    rcases bestSec_isSome_of_pos (pyLower k) k hpos with ⟨s, hs⟩
    refine ⟨s, by rw [bestSec, hs], ?_⟩
    unfold assign
    rcases hbp : bestPair (pyLower k) k with ⟨os, bs⟩
    have hos : os = some s := by rw [hbp] at hs; exact hs
    have hbs : 50 ≤ bs := by
      have : bestScore k = bs := by rw [bestScore, hbp]
      omega
    rw [hos]
    simp [hbs]

/-- C4 witness: "캡슐" scores below the threshold everywhere (it is not
related by substring to any configured section keyword) and the fallback
chain sends it to the appearance section "성상". -/
theorem fallback_chain_deterministic_witness :
    bestScore "캡슐" < 50 ∧ assign "캡슐" = SectionId.appearance :=
  ⟨by decide,
   ((fallback_chain_deterministic "캡슐").1 (by decide)).trans (by decide)⟩

/-! ## Tokenizer (`split_into_tokens`, text_processor.py 59–113)

The five protected patterns are hand-compiled.  Greedy matching without
backtracking is exact here: no alternative of any pattern begins with a digit,
a dot or a space, so the regex engine's backtracking over `\d+ \.? \d* \s*`
can never turn a local failure into a success. -/

/-- Case-insensitive literal test (`re.IGNORECASE`): does `cs` start with
`lit`?  On success returns the consumed original characters. -/
def matchLitCI (lit : List Char) (cs : List Char) : Option (List Char) :=
  if listIsPre (lit.map Char.toLower) (cs.map Char.toLower) then
    some (cs.take lit.length)
  else
    Option.none

/-- Ordered alternation of case-insensitive literals (first match wins, as in
the regex `a|b|...`). -/
def matchAlts : List String → List Char → Option (List Char)
  | [], _ => Option.none
  | a :: rest, cs =>
    match matchLitCI a.data cs with
    | some m => some m
    | Option.none => matchAlts rest cs

/-- The unit alternatives of the number-unit pattern, in source order. -/
def unitAlts : List String :=
  ["mg", "g", "ml", "mcg", "IU", "단위", "정", "캡슐", "주사제"]

/-- Match `\d+\.?\d*\s*(mg|g|ml|mcg|IU|단위|정|캡슐|주사제)` at the start of
`cs`; returns (whole match, unit group). -/
def matchNumUnit (cs : List Char) : Option (List Char × List Char) :=
  let d1 := cs.takeWhile Char.isDigit
  let r1 := cs.dropWhile Char.isDigit
  if d1.isEmpty then Option.none else
  let dotPart : List Char × List Char :=
    match r1 with
    | c :: t => if c == '.' then ([c], t) else ([], r1)
    | [] => ([], r1)
  let d2 := dotPart.2.takeWhile Char.isDigit
  let r3 := dotPart.2.dropWhile Char.isDigit
  let sp := r3.takeWhile isPySpace
  let r4 := r3.dropWhile isPySpace
  match matchAlts unitAlts r4 with
  | some u => some (d1 ++ dotPart.1 ++ d2 ++ sp ++ u, u)
  | Option.none => Option.none

/-- Match `\d+%` at the start of `cs`. -/
def matchNumPercent (cs : List Char) : Option (List Char) :=
  let d1 := cs.takeWhile Char.isDigit
  let r1 := cs.dropWhile Char.isDigit
  if d1.isEmpty then Option.none else
  match r1 with
  | c :: _ => if c == '%' then some (d1 ++ [c]) else Option.none
  | [] => Option.none

/-- Match protected pattern number `i` at the start of `cs`
(the `protected_patterns` list of the source, same order). -/
def matchPatAt (i : Nat) (cs : List Char) : Option (List Char) :=
  match i with
  | 0 => (matchNumUnit cs).map Prod.fst
  | 1 => matchNumPercent cs
  | 2 => matchAlts ["USP", "EP", "JP"] cs
  | 3 => matchAlts ["필름코팅정"] cs
  | 4 => matchAlts ["아세트아미노펜", "이부프로펜", "아스피린", "세마글루타이드",
                    "메트포르민", "글리메피리드", "파세타민"] cs
  | _ => Option.none

/-- `re.finditer` for pattern `i`: leftmost, non-overlapping matches.  The
first argument is fuel (the scan consumes at least one character per step, so
`cs.length` fuel is always enough; no protected pattern matches the empty
string). -/
def findIterAux (i : Nat) : Nat → List Char → List (List Char)
  | 0, _ => []
  | _, [] => []
  | Nat.succ f, c :: rest =>
    match matchPatAt i (c :: rest) with
    | some m => m :: findIterAux i f ((c :: rest).drop (max m.length 1))
    | Option.none => findIterAux i f rest

/-- All matches of protected pattern `i` in `text`. -/
def findIter (i : Nat) (text : String) : List String :=
  (findIterAux i text.data.length text.data).map String.mk

/-- The (marker, matched text) association list built by the first loop of
`split_into_tokens` (the marker embeds the pattern index and the running
length of `protected_tokens`). -/
def protectedScan (text : String) : List (String × String) :=
  [0, 1, 2, 3, 4].foldl
    (fun acc i =>
      (findIter i text).foldl
        (fun acc2 m =>
          acc2 ++ [("__PROTECTED_" ++ toString i ++ "_" ++ toString acc2.length ++ "__", m)])
        acc)
    []

/-- Python `str.replace(old, new)` (all non-overlapping occurrences, left to
right, scanning resumes after the inserted text).  Fuel-recursive; `old` is
never empty at the call sites. -/
def pyReplaceAux (old new : List Char) : Nat → List Char → List Char
  | _, [] => []
  | 0, cs => cs
  | Nat.succ f, c :: rest =>
    if listIsPre old (c :: rest) then
      new ++ pyReplaceAux old new f ((c :: rest).drop (max old.length 1))
    else
      c :: pyReplaceAux old new f rest

/-- Python `str.replace` on strings. -/
def pyReplace (s old new : String) : String :=
  String.mk (pyReplaceAux old.data new.data s.data.length s.data)

/-- The separator class of `re.split(r'[\s\.,;:!?()\[\]{}"\']+', ...)`. -/
def isSepChar (c : Char) : Bool :=
  isPySpace c || c == '.' || c == ',' || c == ';' || c == ':' || c == '!' ||
  c == '?' || c == '(' || c == ')' || c == '[' || c == ']' ||
  c == Char.ofNat 123 || c == Char.ofNat 125 || c == Char.ofNat 34 || c == Char.ofNat 39

/-- `re.split` on a one-character-class-plus pattern: separator runs split the
text; a leading or trailing run contributes one empty token, like Python.
Fuel-recursive (each step consumes at least one character, so `cs.length`
fuel always reaches the empty-list base case first). -/
def splitSepAux : Nat → List Char → List Char → List (List Char)
  | _, [], cur => [cur.reverse]
  | 0, cs, cur => [cur.reverse ++ cs]
  | Nat.succ f, c :: rest, cur =>
    if isSepChar c then
      cur.reverse :: splitSepAux f (rest.dropWhile isSepChar) []
    else
      splitSepAux f rest (c :: cur)

/-- `re.split(r'[\s\.,;:!?()\[\]{}"\']+', s)`. -/
def splitSep (s : String) : List String :=
  (splitSepAux s.data.length s.data []).map String.mk

/-- `split_into_tokens` (text_processor.py 59–113): protect the five pattern
families behind markers, split on whitespace/punctuation, drop empties, and
restore the protected text. -/
def split_into_tokens (text : String) : List String :=
  let markers := protectedScan text
  let replaced := markers.foldl (fun s p => pyReplace s p.2 p.1) text
  let tokens := splitSep replaced
  let cleaned := (tokens.map pyStrip).filter (fun t => 1 ≤ t.length)
  cleaned.map (fun t =>
    if listIsPre "__PROTECTED_".data t.data then
      match markers.lookup t with
      | some orig => orig
      | Option.none => t
    else t)

/-- C5 -- on "세마글루타이드 1mg 주사제" the tokenizer keeps the protected
number-unit pattern "1mg" as one token and never emits "1" or "mg" alone. -/
theorem split_into_tokens_protects_1mg :
    "1mg" ∈ split_into_tokens "세마글루타이드 1mg 주사제" ∧
    "1" ∉ split_into_tokens "세마글루타이드 1mg 주사제" ∧
    "mg" ∉ split_into_tokens "세마글루타이드 1mg 주사제" := by
  decide

/-! ## `tokenize_product_name` (keyword_processor.py 6–17) -/

/-- `re.finditer`-style scan of the number-unit pattern returning, per match,
the pair (whole match, capture group).  Fuel-recursive like `findIterAux`. -/
def numUnitScanAux : Nat → List Char → List (List Char × List Char)
  | 0, _ => []
  | _, [] => []
  | Nat.succ f, c :: rest =>
    match matchNumUnit (c :: rest) with
    | some m => m :: numUnitScanAux f ((c :: rest).drop (max m.1.length 1))
    | Option.none => numUnitScanAux f rest

/-- All (whole match, unit group) pairs of the number-unit pattern in `s`. -/
def numUnitScan (s : String) : List (List Char × List Char) :=
  numUnitScanAux s.data.length s.data

/-- `re.sub(number_unit_pattern, '', s)`: delete every non-overlapping match.
Fuel-recursive. -/
def numUnitSubAux : Nat → List Char → List Char
  | 0, cs => cs
  | _, [] => []
  | Nat.succ f, c :: rest =>
    match matchNumUnit (c :: rest) with
    | some m => numUnitSubAux f ((c :: rest).drop (max m.1.length 1))
    | Option.none => c :: numUnitSubAux f rest

/-- `re.split(r'\s+', s)` for an already-stripped `s`: on the empty string the
Python call returns `['']`; otherwise (no leading/trailing whitespace) it
equals the whitespace-run split. -/
def splitWsRe (s : String) : List String :=
  if s.data.isEmpty then [""] else pySplitWs s

/-- `tokenize_product_name` (keyword_processor.py 6–17): `re.findall` with a
capture group returns only the group (the unit), the matched number-unit
spans are deleted from the remaining text, and the remaining tokens come
first. -/
def tokenize_product_name (product_name : String) : List String :=
  if product_name = "" then []
  else
    let ms := numUnitScan product_name
    let number_units := ms.map (fun p => String.mk p.2)
    let remaining_text := String.mk (numUnitSubAux product_name.data.length product_name.data)
    let remaining_tokens := splitWsRe (pyStrip remaining_text)
    let tokens := remaining_tokens ++ number_units
    (tokens.map pyStrip).filter (fun t => t ≠ "")

/-- C10 -- `tokenize_product_name` keeps only the unit captured by the regex
group, not the full number-unit match: on "세마글루타이드 1mg 주사제" it
returns ["세마글루타이드", "주사제", "mg"], so neither "1mg" nor "1" is a
product token and the numeric part of the dosage is absent from the
similarity base of the ranker. -/
theorem tokenize_product_name_keeps_only_unit :
    tokenize_product_name "세마글루타이드 1mg 주사제" = ["세마글루타이드", "주사제", "mg"] ∧
    "1mg" ∉ tokenize_product_name "세마글루타이드 1mg 주사제" ∧
    "1" ∉ tokenize_product_name "세마글루타이드 1mg 주사제" := by
  decide

/-! ## Keyword ranker (`calculate_keyword_weights`, text_processor.py 317–353)

Floats are modelled as exact rationals.  `SequenceMatcher(None, a, b).ratio()`
is Python standard-library code external to this repository; it is the `sim`
parameter below, with its documented range [0, 1] assumed where needed. -/

/-- 1 for a true lexical feature, 0 otherwise. -/
def boolInd (b : Bool) : ℚ := if b then 1 else 0

/-- Python `\w` on the repository's character domain: ASCII word characters
and Hangul (syllables and compatibility jamo). -/
def pyWordChar (c : Char) : Bool :=
  c.isAlphanum || c == '_' ||
  (0xAC00 ≤ c.toNat && c.toNat ≤ 0xD7A3) || (0x3131 ≤ c.toNat && c.toNat ≤ 0x318E)

/-- `re.search(r'[^\w\s]', s)`: some character that is neither a word
character nor whitespace. -/
def hasSpecial (s : String) : Bool :=
  s.data.any (fun c => !(pyWordChar c || isPySpace c))

/-- `re.search(r'[가-힣]', s)`: a Hangul syllable (U+AC00–U+D7A3). -/
def hasKorean (s : String) : Bool :=
  s.data.any (fun c => 0xAC00 ≤ c.toNat && c.toNat ≤ 0xD7A3)

/-- `re.search(r'[a-zA-Z]', s)`. -/
def hasEnglish (s : String) : Bool :=
  s.data.any (fun c => c.isAlpha)

/-- The weight of one keyword (source lines 323–348): capped frequency term,
best product-token similarity term, and lexical-feature term. -/
def calcWeight (sim : String → String → ℚ) (freqTbl : List (String × Nat))
    (product_tokens : List String) (k : String) : ℚ :=
  let frequency : Nat := (freqTbl.lookup k).getD 1
  let frequency_score : ℚ := min ((frequency : ℚ) * (2/5)) (2/5)
  let similarity_best : ℚ :=
    product_tokens.foldl (fun acc t => max acc (sim (pyLower k) (pyLower t))) 0
  let similarity_score : ℚ := similarity_best * (2/5)
  let context_score : ℚ :=
    if 1 ≤ k.length then
      (3/10 + (1/5) * boolInd (hasDigit k) + (1/5) * boolInd (hasSpecial k)
        + (1/5) * boolInd (hasKorean k) + (1/10) * boolInd (hasEnglish k)) * (1/5)
    else 0
  frequency_score + similarity_score + context_score

/-- Stable descending insertion: place `a` before the first strictly smaller
weight (equal weights keep the earlier element first, matching Python's
stable `sort(key=..., reverse=True)`). -/
def insDesc (a : String × ℚ) : List (String × ℚ) → List (String × ℚ)
  | [] => [a]
  | b :: t => if b.2 ≤ a.2 then a :: b :: t else b :: insDesc a t

/-- Stable sort by descending weight (insertion sort; stable descending sorts
of a list are unique, so this equals Python's timsort output). -/
def sortDescQ : List (String × ℚ) → List (String × ℚ)
  | [] => []
  | a :: t => insDesc a (sortDescQ t)

/-- `calculate_keyword_weights` (text_processor.py 317–353). -/
def calculate_keyword_weights (sim : String → String → ℚ) (keywords : List String)
    (product_tokens : List String) (freqTbl : List (String × Nat)) :
    List (String × ℚ) :=
  sortDescQ (keywords.map (fun k => (k, calcWeight sim freqTbl product_tokens k)))

/-- `get_top_keywords_by_section` (text_processor.py 355–367): skip sections
with an empty list, keep the first `top_n` keywords by descending weight. -/
def get_top_keywords_by_section (sim : String → String → ℚ)
    (section_keywords : List (String × List String)) (product_tokens : List String)
    (freqTbl : List (String × Nat)) (top_n : Nat) : List (String × List String) :=
  section_keywords.foldl
    (fun acc p =>
      if p.2.isEmpty then acc
      else acc ++ [(p.1,
        ((calculate_keyword_weights sim p.2 product_tokens freqTbl).take top_n).map Prod.fst)])
    []

/-- A fixed trivial similarity used by witnesses (any function in [0,1] works). -/
def zeroSim : String → String → ℚ := fun _ _ => 0

/-! ## C9: every ranked weight lies in [0, 1] -/

lemma boolInd_nonneg (b : Bool) : 0 ≤ boolInd b := by
  unfold boolInd; split <;> norm_num

lemma boolInd_le_one (b : Bool) : boolInd b ≤ 1 := by
  unfold boolInd; split <;> norm_num

lemma mem_insDesc (a p : String × ℚ) (l : List (String × ℚ)) :
    p ∈ insDesc a l ↔ p = a ∨ p ∈ l := by
  induction l with
  | nil => simp [insDesc]
  | cons b t ih =>
    unfold insDesc
    split
    · simp
    · simp only [List.mem_cons, ih]
      tauto

lemma mem_sortDescQ (p : String × ℚ) (l : List (String × ℚ)) :
    p ∈ sortDescQ l ↔ p ∈ l := by
  induction l with
  | nil => simp [sortDescQ]
  | cons a t ih => simp [sortDescQ, mem_insDesc, ih]

lemma length_insDesc (a : String × ℚ) (l : List (String × ℚ)) :
    (insDesc a l).length = l.length + 1 := by
  induction l with
  | nil => rfl
  | cons b t ih =>
    unfold insDesc
    split
    · simp
    · simp [ih]

lemma length_sortDescQ (l : List (String × ℚ)) :
    (sortDescQ l).length = l.length := by
  induction l with
  | nil => rfl
  | cons a t ih => simp [sortDescQ, length_insDesc, ih]

/-- The running maximum of similarity values stays in [0, 1]. -/
lemma simFold_bounds (sim : String → String → ℚ)
    (hsim : ∀ a b, 0 ≤ sim a b ∧ sim a b ≤ 1) (k : String) :
    ∀ (l : List String) (acc : ℚ), 0 ≤ acc → acc ≤ 1 →
      0 ≤ l.foldl (fun acc t => max acc (sim (pyLower k) (pyLower t))) acc ∧
      l.foldl (fun acc t => max acc (sim (pyLower k) (pyLower t))) acc ≤ 1 := by
  intro l
  induction l with
  | nil => intro acc h0 h1; exact ⟨h0, h1⟩
  | cons t ts ih =>
    intro acc h0 h1
    refine ih _ (le_trans h0 (le_max_left _ _)) ?_
    exact max_le h1 (hsim (pyLower k) (pyLower t)).2

lemma calcWeight_bounds (sim : String → String → ℚ)
    (hsim : ∀ a b, 0 ≤ sim a b ∧ sim a b ≤ 1)
    (freqTbl : List (String × Nat)) (product_tokens : List String) (k : String) :
    0 ≤ calcWeight sim freqTbl product_tokens k ∧
    calcWeight sim freqTbl product_tokens k ≤ 1 := by
  unfold calcWeight
  set f : ℚ := (((freqTbl.lookup k).getD 1 : Nat) : ℚ) with hf
  have hf0 : 0 ≤ f := by positivity
  have hfs0 : (0:ℚ) ≤ min (f * (2/5)) (2/5) := le_min (by positivity) (by norm_num)
  have hfs1 : min (f * (2/5)) (2/5) ≤ 2/5 := min_le_right _ _
  have hsb := simFold_bounds sim hsim k product_tokens 0 le_rfl (by norm_num)
  set sb : ℚ := product_tokens.foldl (fun acc t => max acc (sim (pyLower k) (pyLower t))) 0
  have hss0 : (0:ℚ) ≤ sb * (2/5) := by
    have := hsb.1
    positivity
  have hss1 : sb * (2/5) ≤ 2/5 := by
    have := hsb.2
    nlinarith
  have hcs : (0:ℚ) ≤ (if 1 ≤ k.length then
      (3/10 + (1/5) * boolInd (hasDigit k) + (1/5) * boolInd (hasSpecial k)
        + (1/5) * boolInd (hasKorean k) + (1/10) * boolInd (hasEnglish k)) * (1/5)
      else 0) ∧ (if 1 ≤ k.length then
      (3/10 + (1/5) * boolInd (hasDigit k) + (1/5) * boolInd (hasSpecial k)
        + (1/5) * boolInd (hasKorean k) + (1/10) * boolInd (hasEnglish k)) * (1/5)
      else 0) ≤ 1/5 := by
    have b1 := boolInd_nonneg (hasDigit k); have c1 := boolInd_le_one (hasDigit k)
    have b2 := boolInd_nonneg (hasSpecial k); have c2 := boolInd_le_one (hasSpecial k)
    have b3 := boolInd_nonneg (hasKorean k); have c3 := boolInd_le_one (hasKorean k)
    have b4 := boolInd_nonneg (hasEnglish k); have c4 := boolInd_le_one (hasEnglish k)
    split
    · constructor <;> nlinarith
    · norm_num
  constructor
  · linarith [hcs.1]
  · linarith [hcs.2]

/-- C9 -- every (keyword, weight) pair produced by
`calculate_keyword_weights` has a weight in [0, 1]: the frequency term is
capped at 0.4, the similarity term is at most 0.4 (for any similarity
function in [0, 1], as `difflib.SequenceMatcher.ratio` is documented to be),
and the lexical-feature term is at most 0.2. -/
theorem keyword_weight_in_unit_interval (sim : String → String → ℚ)
    (hsim : ∀ a b, 0 ≤ sim a b ∧ sim a b ≤ 1)
    (keywords product_tokens : List String) (freqTbl : List (String × Nat))
    (p : String × ℚ)
    (hp : p ∈ calculate_keyword_weights sim keywords product_tokens freqTbl) :
    0 ≤ p.2 ∧ p.2 ≤ 1 := by
  unfold calculate_keyword_weights at hp
  rw [mem_sortDescQ] at hp
  rcases List.mem_map.mp hp with ⟨k, _, hpk⟩
  rw [← hpk]
  exact calcWeight_bounds sim hsim freqTbl product_tokens k

/-- C9 witness: the theorem applied at the concrete list ["유리"] with the
trivial similarity; the computed weight is 0.4 + 0 + 0.1 = 0.5. -/
theorem keyword_weight_in_unit_interval_witness :
    0 ≤ (("유리", (1:ℚ)/2) : String × ℚ).2 ∧ (("유리", (1:ℚ)/2) : String × ℚ).2 ≤ 1 := by
  have hval : calcWeight zeroSim [] [] "유리" = 1/2 := by
    have h1 : hasDigit "유리" = false := rfl
    have h2 : hasSpecial "유리" = false := rfl
    have h3 : hasKorean "유리" = true := rfl
    have h4 : hasEnglish "유리" = false := rfl
    simp [calcWeight, zeroSim, boolInd, h1, h2, h3, h4, String.length]
    norm_num
  refine keyword_weight_in_unit_interval zeroSim
    (fun a b => ⟨le_refl 0, by norm_num [zeroSim]⟩) ["유리"] [] []
    ("유리", (1:ℚ)/2) ?_
  simp [calculate_keyword_weights, sortDescQ, insDesc, hval]

/-! ## C6: per-section output sizes of the ranker -/

lemma length_calculate_keyword_weights (sim : String → String → ℚ)
    (keywords product_tokens : List String) (freqTbl : List (String × Nat)) :
    (calculate_keyword_weights sim keywords product_tokens freqTbl).length
      = keywords.length := by
  simp [calculate_keyword_weights, length_sortDescQ]

/-- The per-entry transformation of `get_top_keywords_by_section`. -/
def topEntry (sim : String → String → ℚ) (product_tokens : List String)
    (freqTbl : List (String × Nat)) (top_n : Nat) (p : String × List String) :
    Option (String × List String) :=
  if p.2.isEmpty then Option.none
  else some (p.1,
    ((calculate_keyword_weights sim p.2 product_tokens freqTbl).take top_n).map Prod.fst)

lemma getTop_eq_filterMap (sim : String → String → ℚ)
    (input : List (String × List String)) (product_tokens : List String)
    (freqTbl : List (String × Nat)) (top_n : Nat) :
    get_top_keywords_by_section sim input product_tokens freqTbl top_n
      = input.filterMap (topEntry sim product_tokens freqTbl top_n) := by
  have key : ∀ (l : List (String × List String)) (acc : List (String × List String)),
      l.foldl
        (fun acc p =>
          if p.2.isEmpty then acc
          else acc ++ [(p.1,
            ((calculate_keyword_weights sim p.2 product_tokens freqTbl).take top_n).map Prod.fst)])
        acc
      = acc ++ l.filterMap (topEntry sim product_tokens freqTbl top_n) := by
    intro l
    induction l with
    | nil => intro acc; simp
    | cons p t ih =>
      intro acc
      rw [List.foldl_cons]
      by_cases h : p.2.isEmpty
      · rw [if_pos h, ih, List.filterMap_cons]
        simp [topEntry, h]
      · rw [if_neg h, ih, List.filterMap_cons]
        simp [topEntry, h]
  simpa [get_top_keywords_by_section] using key input []

lemma lookup_none_of_key_absent {β : Type} (sec : String) :
    ∀ l : List (String × β), sec ∉ l.map Prod.fst → List.lookup sec l = Option.none := by
  intro l
  induction l with
  | nil => intro _; rfl
  | cons a t ih =>
    intro h
    rcases a with ⟨a1, a2⟩
    simp only [List.map_cons, List.mem_cons] at h
    push_neg at h
    have hne : (sec == a1) = false := beq_eq_false_iff_ne.mpr h.1
    simpa [List.lookup, hne] using ih h.2

/-- Keys of the filter-mapped output are among the input keys. -/
lemma keys_filterMap_subset (sim : String → String → ℚ)
    (product_tokens : List String) (freqTbl : List (String × Nat)) (top_n : Nat) :
    ∀ (l : List (String × List String)) (sec : String),
      sec ∈ (l.filterMap (topEntry sim product_tokens freqTbl top_n)).map Prod.fst →
      sec ∈ l.map Prod.fst := by
  intro l
  induction l with
  | nil => intro sec h; simp at h
  | cons p t ih =>
    intro sec h
    rw [List.filterMap_cons] at h
    by_cases hp : p.2.isEmpty
    · rw [show topEntry sim product_tokens freqTbl top_n p = Option.none from
        by simp [topEntry, hp]] at h
      exact List.mem_cons.mpr (Or.inr (ih sec h))
    · rw [show topEntry sim product_tokens freqTbl top_n p
          = some (p.1, ((calculate_keyword_weights sim p.2 product_tokens freqTbl).take
              top_n).map Prod.fst) from by simp [topEntry, hp]] at h
      simp only [List.map_cons, List.mem_cons] at h
      rcases h with h | h
      · exact List.mem_cons.mpr (Or.inl h)
      · exact List.mem_cons.mpr (Or.inr (ih sec h))

/-- C6 -- in `get_top_keywords_by_section` (with distinct section keys, as in
a Python dict): a section with an empty keyword list is absent from the
output; a section with a non-empty list gets exactly `min top_n (input
length)` keywords — `top_n` when it has at least `top_n` keywords, all of
them otherwise. -/
theorem top_keywords_section_sizes (sim : String → String → ℚ)
    (product_tokens : List String) (freqTbl : List (String × Nat)) (top_n : Nat)
    (input : List (String × List String))
    (hnd : (input.map Prod.fst).Nodup)
    (sec : String) (ks : List String) (hmem : (sec, ks) ∈ input) :
    (ks = [] →
      List.lookup sec (get_top_keywords_by_section sim input product_tokens freqTbl top_n)
        = Option.none) ∧
    (ks ≠ [] →
      (List.lookup sec (get_top_keywords_by_section sim input product_tokens freqTbl top_n)).map
          List.length
        = some (min top_n ks.length)) := by
  rw [getTop_eq_filterMap]
  induction input with
  | nil => cases hmem
  | cons p t ih =>
    rw [List.map_cons] at hnd
    have hnd1 : p.1 ∉ t.map Prod.fst := (List.nodup_cons.mp hnd).1
    have hndt : (t.map Prod.fst).Nodup := (List.nodup_cons.mp hnd).2
    rcases List.mem_cons.mp hmem with heq | htl
    · subst heq
      constructor
      · intro hks
        subst hks
        rw [List.filterMap_cons]
        rw [show topEntry sim product_tokens freqTbl top_n (sec, ([] : List String))
            = Option.none from rfl]
        refine lookup_none_of_key_absent sec _ (fun hcon => ?_)
        exact hnd1 (by simpa using
          keys_filterMap_subset sim product_tokens freqTbl top_n t sec hcon)
      · intro hks
        have hemp : ks.isEmpty = false := by
          cases ks with
          | nil => exact absurd rfl hks
          | cons a b => rfl
        rw [List.filterMap_cons]
        rw [show topEntry sim product_tokens freqTbl top_n (sec, ks)
            = some (sec, ((calculate_keyword_weights sim ks product_tokens freqTbl).take
                top_n).map Prod.fst) from by simp [topEntry, hemp]]
        simp [List.lookup, List.length_take, length_calculate_keyword_weights]
    · have hkey : sec ∈ t.map Prod.fst := List.mem_map.mpr ⟨(sec, ks), htl, rfl⟩
      have hne : (sec == p.1) = false :=
        beq_eq_false_iff_ne.mpr (fun h => hnd1 (h ▸ hkey))
      have ihr := ih hndt htl
      rw [List.filterMap_cons]
      by_cases hp : p.2.isEmpty
      · rw [show topEntry sim product_tokens freqTbl top_n p = Option.none from
          by simp [topEntry, hp]]
        exact ihr
      · rw [show topEntry sim product_tokens freqTbl top_n p
            = some (p.1, ((calculate_keyword_weights sim p.2 product_tokens freqTbl).take
                top_n).map Prod.fst) from by simp [topEntry, hp]]
        have hskip : ∀ (rest : List (String × List String)) (L : List String),
            List.lookup sec ((p.1, L) :: rest) = List.lookup sec rest := by
          intro rest L
          simp [List.lookup, hne]
        constructor
        · intro hks
          rw [hskip]
          exact ihr.1 hks
        · intro hks
          rw [hskip]
          exact ihr.2 hks

/-- C6 witness: input with one empty section ("가") and one one-keyword
section ("성상"): the former is absent, the latter is reported with
min 3 1 = 1 keyword. -/
theorem top_keywords_section_sizes_witness :
    (List.lookup "가"
        (get_top_keywords_by_section zeroSim [("가", []), ("성상", ["흰색"])] [] [] 3)
      = Option.none) ∧
    ((List.lookup "성상"
        (get_top_keywords_by_section zeroSim [("가", []), ("성상", ["흰색"])] [] [] 3)).map
        List.length
      = some (min 3 1)) :=
  ⟨(top_keywords_section_sizes zeroSim [] [] 3 [("가", []), ("성상", ["흰색"])]
      (by decide) "가" [] (by decide)).1 rfl,
   (top_keywords_section_sizes zeroSim [] [] 3 [("가", []), ("성상", ["흰색"])]
      (by decide) "성상" ["흰색"] (by decide)).2 (by decide)⟩

/-! ## Narrative generator (`generate_section_sentences`, text_processor.py 369–721)

The generative client (`llm/ollama_client.py`, in the repository but not
under `src/`) is modelled as an unconstrained outcome per section, and
`json.loads` as an unconstrained parser parameter; the spec's boundary
contract (mappings from string keys to string values, or a raw string) enters
only as explicit hypotheses. -/

/-- A value inside a structured service response (`isinstance(value, str)`
distinguishes strings from everything else). -/
inductive LLMVal
  | s (v : String)
  | other
deriving DecidableEq, Repr

/-- The outcome of one `generate_overview_with_llm` call, as the caller
distinguishes it: a dict, a string, a falsy/other value, or a raised
exception (caught by the enclosing `except`). -/
inductive LLMOutcome
  | dict (entries : List (String × LLMVal))
  | str (raw : String)
  | emptyOut
  | exn
deriving DecidableEq, Repr

/-- The keys of `section_prompts` (the 11 section names). -/
def promptSections : List String :=
  ["성분 및 함량", "성상", "효능 및 효과", "용법 및 용량", "사용상 주의사항",
   "상호작용", "임부 및 수유부 사용", "고령자 사용", "적용 시 주의사항",
   "보관 및 취급", "제조 및 판매사 정보"]

/-- The deterministic fallback sentence
`f"{product_name}의 {section}는 {keywords_str}를 포함합니다."`. -/
def fallbackSentence (pn sec : String) (kws : List String) : String :=
  pn ++ "의 " ++ sec ++ "는 " ++ String.intercalate ", " kws ++ "를 포함합니다."

/-- The no-keyword default sentence
`f"{product_name}의 {section}에 대한 정보가 제공되지 않았습니다."`. -/
def noInfoSentence (pn sec : String) : String :=
  pn ++ "의 " ++ sec ++ "에 대한 정보가 제공되지 않았습니다."

/-- First index of a character in a list (Python `str.find`, as an Option). -/
def idxOfChar (c : Char) : List Char → Option Nat
  | [] => Option.none
  | a :: t =>
    if a == c then some 0
    else (idxOfChar c t).map Nat.succ

/-- Last index of a character (Python `str.rfind`, as an Option). -/
def lastIdxOfChar (c : Char) (cs : List Char) : Option Nat :=
  (idxOfChar c cs.reverse).map (fun i => cs.length - 1 - i)

/-- `result[json_start:json_end+1]` between the first open brace and the last
close brace, when both exist (source lines 625–628). -/
def braceSlice (raw : String) : Option String :=
  match idxOfChar (Char.ofNat 123) raw.data, lastIdxOfChar (Char.ofNat 125) raw.data with
  | some i, some j => some (String.mk ((raw.data.drop i).take (j + 1 - i)))
  | _, _ => Option.none

/-- The embedded-payload extraction of the string branch: locate the braces
and run `json.loads` (the `parse` parameter); `Option.none` models both a
missing brace pair and a `json.JSONDecodeError`. -/
def extractJson (parse : String → Option (List (String × LLMVal))) (raw : String) :
    Option (List (String × LLMVal)) :=
  match braceSlice raw with
  | some t => parse t
  | Option.none => Option.none

/-- The first string value of a dict (`for key, value in result.items(): if
isinstance(value, str): ... break`, source lines 612–616). -/
def scanFirstStr : List (String × LLMVal) → Option String
  | [] => Option.none
  | (_, LLMVal.s v) :: _ => some v
  | _ :: t => scanFirstStr t

/-- Per-section processing of `generate_section_sentences` for a section with
a NON-empty keyword list (source lines 587–657 and the `except` handler
711–716).  The `section_prompts.get(section, "")` truthiness test is the
membership of `sec` in the 11 prompt keys. -/
def processWithKws (parse : String → Option (List (String × LLMVal)))
    (pn sec : String) (kws : List String) (out : LLMOutcome) : LLMVal :=
  if sec ∈ promptSections then
    match out with
    | .dict entries =>
      if entries.isEmpty then .s (fallbackSentence pn sec kws)
      else
        match List.lookup sec entries with
        | some v => v
        | Option.none =>
          match scanFirstStr entries with
          | some v => .s v
          | Option.none => .s (fallbackSentence pn sec kws)
    | .str raw =>
      if pyStrip raw = "" then .s (fallbackSentence pn sec kws)
      else
        match extractJson parse raw with
        | some obj =>
          match List.lookup sec obj with
          | some v => v
          | Option.none => .s (fallbackSentence pn sec kws)
        | Option.none => .s (fallbackSentence pn sec kws)
    | .emptyOut => .s (fallbackSentence pn sec kws)
    | .exn => .s (fallbackSentence pn sec kws)
  else
    .s (fallbackSentence pn sec kws)

/-- Per-section processing for a section with an EMPTY keyword list (source
lines 658–709 and the `except` handler 717–719): the dict branch has no
string-value scan here, and defaults go to the no-information sentence. -/
def processNoKws (parse : String → Option (List (String × LLMVal)))
    (pn sec : String) (out : LLMOutcome) : LLMVal :=
  match out with
  | .dict entries =>
    if entries.isEmpty then .s (noInfoSentence pn sec)
    else
      match List.lookup sec entries with
      | some v => v
      | Option.none => .s (noInfoSentence pn sec)
  | .str raw =>
    if pyStrip raw = "" then .s (noInfoSentence pn sec)
    else
      match extractJson parse raw with
      | some obj =>
        match List.lookup sec obj with
        | some v => v
        | Option.none => .s (noInfoSentence pn sec)
      | Option.none => .s (noInfoSentence pn sec)
  | .emptyOut => .s (noInfoSentence pn sec)
  | .exn => .s (noInfoSentence pn sec)

/-- One section of the loop of `generate_section_sentences`. -/
def processSection (parse : String → Option (List (String × LLMVal)))
    (pn sec : String) (kws : List String) (out : LLMOutcome) : LLMVal :=
  if kws.isEmpty then processNoKws parse pn sec out
  else processWithKws parse pn sec kws out

/-- `generate_section_sentences` (text_processor.py 369–721): one generated
value per processed section, in input order (`outcomeOf` models the service's
response to the section's prompt). -/
def generate_section_sentences (parse : String → Option (List (String × LLMVal)))
    (outcomeOf : String → LLMOutcome) (pn : String)
    (inputs : List (String × List String)) : List (String × LLMVal) :=
  inputs.map (fun p => (p.1, processSection parse pn p.1 p.2 (outcomeOf p.1)))

/-- Recover membership from a successful lookup. -/
lemma mem_of_lookup_some (k : String) (b : LLMVal) (l : List (String × LLMVal))
    (h : List.lookup k l = some b) : (k, b) ∈ l := by
  rcases List.lookup_eq_some_iff.mp h with ⟨l1, l2, hl, _⟩
  subst hl
  simp

/-- Every branch of the with-keywords processing yields a string, provided
dict values and parsed payload values are strings (the spec's boundary
contract). -/
lemma processWithKws_string (parse : String → Option (List (String × LLMVal)))
    (pn sec : String) (kws : List String) (out : LLMOutcome)
    (hd : ∀ entries, out = LLMOutcome.dict entries → ∀ q ∈ entries, ∃ v, q.2 = LLMVal.s v)
    (hp : ∀ t obj, parse t = some obj → ∀ q ∈ obj, ∃ v, q.2 = LLMVal.s v) :
    ∃ v, processWithKws parse pn sec kws out = LLMVal.s v := by
  by_cases hps : sec ∈ promptSections
  · cases out with
    | dict entries =>
      by_cases he : entries.isEmpty
      · exact ⟨fallbackSentence pn sec kws, by simp [processWithKws, hps, he]⟩
      · cases hl : List.lookup sec entries with
        | none =>
          cases hs : scanFirstStr entries with
          | none =>
            exact ⟨fallbackSentence pn sec kws, by simp [processWithKws, hps, he, hl, hs]⟩
          | some v => exact ⟨v, by simp [processWithKws, hps, he, hl, hs]⟩
        | some v =>
          rcases hd entries rfl (sec, v) (mem_of_lookup_some sec v entries hl) with ⟨w, hw⟩
          simp only at hw
          exact ⟨w, by simp [processWithKws, hps, he, hl, hw]⟩
    | str raw =>
      by_cases hraw : pyStrip raw = ""
      · exact ⟨fallbackSentence pn sec kws, by simp [processWithKws, hps, hraw]⟩
      · cases hx : extractJson parse raw with
        | none => exact ⟨fallbackSentence pn sec kws, by simp [processWithKws, hps, hraw, hx]⟩
        | some obj =>
          cases hl : List.lookup sec obj with
          | none =>
            exact ⟨fallbackSentence pn sec kws, by simp [processWithKws, hps, hraw, hx, hl]⟩
          | some v =>
            have hobj : ∃ t, parse t = some obj := by
              unfold extractJson at hx
              cases hb : braceSlice raw with
              | none => rw [hb] at hx; cases hx
              | some t => rw [hb] at hx; exact ⟨t, hx⟩
            rcases hobj with ⟨t, ht⟩
            rcases hp t obj ht (sec, v) (mem_of_lookup_some sec v obj hl) with ⟨w, hw⟩
            simp only at hw
            exact ⟨w, by simp [processWithKws, hps, hraw, hx, hl, hw]⟩
    | emptyOut => exact ⟨fallbackSentence pn sec kws, by simp [processWithKws, hps]⟩
    | exn => exact ⟨fallbackSentence pn sec kws, by simp [processWithKws, hps]⟩
  · exact ⟨fallbackSentence pn sec kws, by simp [processWithKws, hps]⟩

/-- Same for the no-keywords processing. -/
lemma processNoKws_string (parse : String → Option (List (String × LLMVal)))
    (pn sec : String) (out : LLMOutcome)
    (hd : ∀ entries, out = LLMOutcome.dict entries → ∀ q ∈ entries, ∃ v, q.2 = LLMVal.s v)
    (hp : ∀ t obj, parse t = some obj → ∀ q ∈ obj, ∃ v, q.2 = LLMVal.s v) :
    ∃ v, processNoKws parse pn sec out = LLMVal.s v := by
  cases out with
  | dict entries =>
    by_cases he : entries.isEmpty
    · exact ⟨noInfoSentence pn sec, by simp [processNoKws, he]⟩
    · cases hl : List.lookup sec entries with
      | none => exact ⟨noInfoSentence pn sec, by simp [processNoKws, he, hl]⟩
      | some v =>
        rcases hd entries rfl (sec, v) (mem_of_lookup_some sec v entries hl) with ⟨w, hw⟩
        simp only at hw
        exact ⟨w, by simp [processNoKws, he, hl, hw]⟩
  | str raw =>
    by_cases hraw : pyStrip raw = ""
    · exact ⟨noInfoSentence pn sec, by simp [processNoKws, hraw]⟩
    · cases hx : extractJson parse raw with
      | none => exact ⟨noInfoSentence pn sec, by simp [processNoKws, hraw, hx]⟩
      | some obj =>
        cases hl : List.lookup sec obj with
        | none => exact ⟨noInfoSentence pn sec, by simp [processNoKws, hraw, hx, hl]⟩
        | some v =>
          have hobj : ∃ t, parse t = some obj := by
            unfold extractJson at hx
            cases hb : braceSlice raw with
            | none => rw [hb] at hx; cases hx
            | some t => rw [hb] at hx; exact ⟨t, hx⟩
          rcases hobj with ⟨t, ht⟩
          rcases hp t obj ht (sec, v) (mem_of_lookup_some sec v obj hl) with ⟨w, hw⟩
          simp only at hw
          exact ⟨w, by simp [processNoKws, hraw, hx, hl, hw]⟩
  | emptyOut => exact ⟨noInfoSentence pn sec, by simp [processNoKws]⟩
  | exn => exact ⟨noInfoSentence pn sec, by simp [processNoKws]⟩

/-- C7 -- `generate_section_sentences` (i) produces a value for every
processed section and never raises (exceptions enter only as the modelled
`exn` outcome, absorbed by the handler), (ii) under the service contract
(string-valued mappings) every produced value is a string, and (iii) when the
service answers a section that has a non-empty keyword list with an
unparsable string (no brace-delimited payload, or `json.loads` failing), the
returned sentence is exactly the deterministic fallback built from the
product name, the section name and the comma-joined keyword list. -/
theorem narrative_never_fails (parse : String → Option (List (String × LLMVal)))
    (outcomeOf : String → LLMOutcome) (pn : String)
    (inputs : List (String × List String))
    (hd : ∀ sec entries, outcomeOf sec = LLMOutcome.dict entries →
      ∀ q ∈ entries, ∃ v, q.2 = LLMVal.s v)
    (hp : ∀ t obj, parse t = some obj → ∀ q ∈ obj, ∃ v, q.2 = LLMVal.s v) :
    ((generate_section_sentences parse outcomeOf pn inputs).map Prod.fst
      = inputs.map Prod.fst) ∧
    (∀ q ∈ generate_section_sentences parse outcomeOf pn inputs,
      ∃ v, q.2 = LLMVal.s v) ∧
    (∀ sec kws raw, (sec, kws) ∈ inputs → kws ≠ [] →
      outcomeOf sec = LLMOutcome.str raw →
      extractJson parse raw = Option.none →
      (sec, LLMVal.s (fallbackSentence pn sec kws))
        ∈ generate_section_sentences parse outcomeOf pn inputs) := by
  refine ⟨?_, ?_, ?_⟩
  · simp [generate_section_sentences]
  · intro q hq
    rcases List.mem_map.mp hq with ⟨p, hpmem, hpq⟩
    rw [← hpq]
    unfold processSection
    by_cases hk : p.2.isEmpty
    · rw [if_pos hk]
      exact processNoKws_string parse pn p.1 (outcomeOf p.1) (hd p.1) hp
    · rw [if_neg hk]
      exact processWithKws_string parse pn p.1 p.2 (outcomeOf p.1) (hd p.1) hp
  · intro sec kws raw hmem hkws hout hx
    have hk : kws.isEmpty = false := by
      cases kws with
      | nil => exact absurd rfl hkws
      | cons a b => rfl
    have hval : processSection parse pn sec kws (outcomeOf sec)
        = LLMVal.s (fallbackSentence pn sec kws) := by
      rw [hout]
      by_cases hps : sec ∈ promptSections
      · by_cases hraw : pyStrip raw = ""
        · simp [processSection, hk, processWithKws, hps, hraw]
        · simp [processSection, hk, processWithKws, hps, hraw, hx]
      · simp [processSection, hk, processWithKws, hps]
    exact List.mem_map.mpr ⟨(sec, kws), hmem, by rw [hval]⟩

/-- C7 witness: one section "성상" with keyword list ["흰색"], a service that
answers with a brace-free string, and a parser that always fails: the output
contains the fallback sentence "테스트의 성상는 흰색를 포함합니다.". -/
theorem narrative_never_fails_witness :
    ("성상", LLMVal.s "테스트의 성상는 흰색를 포함합니다.")
      ∈ generate_section_sentences (fun _ => Option.none)
          (fun _ => LLMOutcome.str "응답을 파싱할 수 없습니다") "테스트"
          [("성상", ["흰색"])] := by
  have h := (narrative_never_fails (fun _ => Option.none)
    (fun _ => LLMOutcome.str "응답을 파싱할 수 없습니다") "테스트" [("성상", ["흰색"])]
    (fun sec entries hcon => by cases hcon)
    (fun t obj hcon => by cases hcon)).2.2
    "성상" ["흰색"] "응답을 파싱할 수 없습니다" (by decide) (by decide) rfl (by decide)
  have hstr : fallbackSentence "테스트" "성상" ["흰색"] = "테스트의 성상는 흰색를 포함합니다." := by
    decide
  rw [hstr] at h
  exact h

/-! ## `extract_medical_data_from_text` (text_processor.py 723–804)

Only the guard structure decides claim C8; the downstream pipeline (which
calls the generative service throughout) is a parameter, so the early-return
result is provably independent of it.  `test_ollama_connection` (from the
client module absent from `src/`) is the Boolean `connOk`. -/

/-- The result: either the early-return two-key structure (the keys "3.2.P.1"
and "3.2.P.2", each mapped to an empty dict) or a full assembled document. -/
inductive ExtractOut (α : Type)
  | twoKey (m : List (String × List (String × String)))
  | full (a : α)
deriving DecidableEq

/-- The literal early-return value `{"3.2.P.1": {}, "3.2.P.2": {}}`. -/
def emptyTwoKey {α : Type} : ExtractOut α :=
  ExtractOut.twoKey [("3.2.P.1", []), ("3.2.P.2", [])]

/-- `extract_medical_data_from_text` (text_processor.py 723–804): connection
probe first, then the product-name guard, then the 8-step pipeline. -/
def extract_medical_data_from_text {α : Type} (connOk : Bool)
    (pipeline : String → String → α) (text user_product_name : String) :
    ExtractOut α :=
  if connOk = false then emptyTwoKey
  else if user_product_name = "" then emptyTwoKey
  else ExtractOut.full (pipeline text user_product_name)

/-- C8 -- for every input text and every downstream pipeline, an empty
user-supplied product name makes `extract_medical_data_from_text` return the
empty two-key structure `{"3.2.P.1": {}, "3.2.P.2": {}}`; the result does not
depend on the text or the pipeline, so no tokenization, extraction or
classification influences it. -/
theorem extract_aborts_on_empty_product_name {α : Type} (connOk : Bool)
    (pipeline : String → String → α) (text : String) :
    extract_medical_data_from_text connOk pipeline text ""
      = ExtractOut.twoKey [("3.2.P.1", []), ("3.2.P.2", [])] := by
  unfold extract_medical_data_from_text emptyTwoKey
  by_cases h : connOk = false
  · rw [if_pos h]
  · rw [if_neg h, if_pos rfl]

end MedOverview
